import Mathlib

/-!
Verification of the GitSubmoduleUpdater submodule state-resolution engine.

The TypeScript source (`src/index.ts`, plus the Azure DevOps comment helper)
is shallowly embedded below.  JavaScript string primitives (`trim`,
`startsWith`, `substring`, `split('\n')`, `includes`, truthiness) are
modelled as executable functions over `String.data` (`List Char`); the
`simple-git` process calls are modelled as oracles returning
`Except String String` (the command's stdout, or the stringified rejection),
and the regular expressions of the source are compiled by hand into
deterministic matchers (each regex used by the program is backtracking-free
because its adjacent character classes are disjoint).
-/

/-- JavaScript whitespace (the ASCII part relevant to `trim` / `\s`):
space, tab, newline, carriage return, vertical tab, form feed. -/
def isJsWhitespace (c : Char) : Bool :=
  c == ' ' || c == '\t' || c == '\n' || c == '\r' || c == '\x0b' || c == '\x0c'

/-- `trim` on a character list: drop whitespace from both ends. -/
def jsTrimList (l : List Char) : List Char :=
  ((l.dropWhile isJsWhitespace).reverse.dropWhile isJsWhitespace).reverse

/-- Model of JS `String.prototype.trim`. -/
def jsTrim (s : String) : String := ⟨jsTrimList s.data⟩

/-- Model of JS `s.startsWith(pre)`. -/
def jsStartsWith (s pre : String) : Bool := pre.data.isPrefixOf s.data

/-- Model of JS `s.endsWith(suf)`. -/
def jsEndsWith (s suf : String) : Bool := suf.data.isSuffixOf s.data

/-- Substring occurrence test on character lists (model of JS `includes`). -/
def listIncludes (pat : List Char) : List Char → Bool
  | [] => pat.isEmpty
  | c :: rest => pat.isPrefixOf (c :: rest) || listIncludes pat rest

/-- Model of JS `s.includes(sub)`. -/
def jsIncludes (s sub : String) : Bool := listIncludes sub.data s.data

/-- Model of JS `s.substring(n)` (drop the first `n` code units). -/
def jsSubstringFrom (s : String) (n : Nat) : String := ⟨s.data.drop n⟩

/-- Model of JS `s.substring(0, s.length - n)` (drop the last `n` code units). -/
def jsDropLast (s : String) (n : Nat) : String := ⟨s.data.take (s.data.length - n)⟩

/-- Model of JS `s.split('\n')` (keeps empty segments; `""` yields `[""]`). -/
def jsSplitLines (s : String) : List String :=
  (List.splitOn '\n' s.data).map (fun l => (⟨l⟩ : String))

/-- JS truthiness of a string: `""` is falsy, every other string is truthy. -/
def jsTruthy (s : String) : Bool := !s.data.isEmpty

/-- JS truthiness of a possibly-undefined string field. -/
def jsTruthyOpt : Option String → Bool
  | none => false
  | some s => jsTruthy s

/-- Model of JS `a || b` on a possibly-undefined string (used for
`submodule.branch || this.defaultBranch`). -/
def jsOrElse : Option String → String → String
  | none, d => d
  | some s, d => if jsTruthy s then s else d

/-! ## Data model (`interface SubmoduleInfo`, `interface GitmodulesEntry`) -/

/-- `interface GitmodulesEntry` from `src/index.ts`. -/
structure GitmodulesEntry where
  path : String
  url : String
  branch : Option String
deriving DecidableEq

/-- `interface SubmoduleInfo` from `src/index.ts`. -/
structure SubmoduleInfo where
  name : String
  path : String
  url : String
  branch : Option String
  currentCommit : String
  latestCommit : String
  needsUpdate : Bool
  error : Option String
deriving DecidableEq

/-! ## Config parser (`parseGitmodules`) -/

/-- The in-progress `Partial<GitmodulesEntry>` accumulated by
`parseGitmodules` while scanning a `[submodule]` block. -/
structure PendingEntry where
  path : Option String
  url : Option String
  branch : Option String
deriving DecidableEq

def emptyPending : PendingEntry := ⟨none, none, none⟩

/-- The JS guard `currentSubmodule.path && currentSubmodule.url`
(undefined and the empty string are both falsy). -/
def pendingComplete (p : PendingEntry) : Bool :=
  jsTruthyOpt p.path && jsTruthyOpt p.url

/-- The cast `currentSubmodule as GitmodulesEntry`. -/
def pendingToEntry (p : PendingEntry) : GitmodulesEntry :=
  ⟨p.path.getD "", p.url.getD "", p.branch⟩

/-- `if (currentSubmodule.path && currentSubmodule.url) submodules.push(...)`. -/
def flushPending (subs : List GitmodulesEntry) (p : PendingEntry) :
    List GitmodulesEntry :=
  if pendingComplete p then subs ++ [pendingToEntry p] else subs

/-- One iteration of the `for (const line of lines)` loop of
`parseGitmodules`. -/
def stepLine (st : List GitmodulesEntry × PendingEntry) (line : String) :
    List GitmodulesEntry × PendingEntry :=
  let t := jsTrim line
  if jsStartsWith t "[submodule " then
    (flushPending st.1 st.2, emptyPending)
  else if jsStartsWith t "path = " then
    (st.1, { st.2 with path := some (jsTrim (jsSubstringFrom t 7)) })
  else if jsStartsWith t "url = " then
    (st.1, { st.2 with url := some (jsTrim (jsSubstringFrom t 6)) })
  else if jsStartsWith t "branch = " then
    (st.1, { st.2 with branch := some (jsTrim (jsSubstringFrom t 9)) })
  else st

/-- Body of `parseGitmodules` after the `content.split('\n')`. -/
def parseLinesList (lines : List String) : List GitmodulesEntry :=
  let st := lines.foldl stepLine ([], emptyPending)
  flushPending st.1 st.2

/-- `private parseGitmodules(): GitmodulesEntry[]` from `src/index.ts`
(applied to the file content already read). -/
def parseGitmodules (content : String) : List GitmodulesEntry :=
  parseLinesList (jsSplitLines content)

/-! ## Tag resolver (`getTagsForCommit`) -/

/-- Lower-case hex digit, the character class `[a-f0-9]`. -/
def isHexDigitLower (c : Char) : Bool :=
  (97 ≤ c.toNat && c.toNat ≤ 102) || c.isDigit

/-- Deterministic compilation of the regex `^([a-f0-9]+)\s+refs\/tags\/(.+)$`
applied to one line: returns `(sha, tag name)` on a match. -/
def matchTagLine (line : String) : Option (String × String) :=
  let cs := line.data
  let sha := cs.takeWhile isHexDigitLower
  let r1 := cs.dropWhile isHexDigitLower
  if sha.isEmpty then none else
  let ws := r1.takeWhile isJsWhitespace
  let r2 := r1.dropWhile isJsWhitespace
  if ws.isEmpty then none else
  if "refs/tags/".data.isPrefixOf r2 then
    let tag := r2.drop 10
    if tag.isEmpty then none else some ((⟨sha⟩ : String), (⟨tag⟩ : String))
  else none

/-- The `^\x7b\x7d` suffix that `git ls-remote` appends to the dereferenced
entry of an annotated tag. -/
def derefSuffix : String := "^\x7b\x7d"

/-- One iteration of the `for (const line of lines)` loop of
`getTagsForCommit`: the tag name contributed by `line` (if any).
`lines` is the full filtered line list (scanned by the
`lines.some(l => l.includes(...))` check). -/
def tagEntryResult (lines : List String) (commitSha : String) (line : String) :
    Option String :=
  match matchTagLine line with
  | none => none
  | some (tagCommit, tagName) =>
    if jsEndsWith tagName derefSuffix then
      -- dereferenced commit of an annotated tag: strip the suffix
      let actualTagName := jsDropLast tagName 3
      if tagCommit == commitSha then some actualTagName else none
    else
      -- possibly a tag-object reference: skip it when a ^{} twin exists
      if lines.any (fun l => jsIncludes l ("refs/tags/" ++ tagName ++ derefSuffix)) then
        none
      else if tagCommit == commitSha then some tagName else none

/-- `^v?(\d+)\.(\d+)\.(\d+)` — the optional-`v` semantic-version pattern used
by the tag comparator (deterministic: if the string starts with `v` the
non-stripping alternative of `v?` can never match, since `v` is not a digit). -/
def parseVersion (s : String) : Option (Nat × Nat × Nat) :=
  let cs := match s.data with
    | 'v' :: rest => rest
    | cs => cs
  let d1 := cs.takeWhile Char.isDigit
  let r1 := cs.dropWhile Char.isDigit
  if d1.isEmpty then none else
  match r1 with
  | '.' :: r2 =>
    let d2 := r2.takeWhile Char.isDigit
    let r3 := r2.dropWhile Char.isDigit
    if d2.isEmpty then none else
    match r3 with
    | '.' :: r4 =>
      let d3 := r4.takeWhile Char.isDigit
      if d3.isEmpty then none else
      some (digitsToNat d1, digitsToNat d2, digitsToNat d3)
    | _ => none
  | _ => none
where
  /-- `parseInt` on a digit-only string. -/
  digitsToNat (ds : List Char) : Nat :=
    ds.foldl (fun n c => 10 * n + (c.toNat - 48)) 0

/-- Three-way comparison of character lists by code point. -/
def listCompare : List Char → List Char → Ordering
  | [], [] => .eq
  | [], _ :: _ => .lt
  | _ :: _, [] => .gt
  | a :: as, b :: bs =>
    match compare a b with
    | .eq => listCompare as bs
    | o => o

/-- Model of JS `a.localeCompare(b)` under code-point collation: negative,
zero or positive as `a` is below, equal to or above `b`. -/
def localeCompare (a b : String) : Int :=
  match listCompare a.data b.data with
  | .lt => -1
  | .eq => 0
  | .gt => 1

/-- The comparator passed to `tags.sort(...)` in `getTagsForCommit`. -/
def tagCompare (a b : String) : Int :=
  match parseVersion a, parseVersion b with
  | some (aMajor, aMinor, aPatch), some (bMajor, bMinor, bPatch) =>
    if aMajor ≠ bMajor then (bMajor : Int) - (aMajor : Int)
    else if aMinor ≠ bMinor then (bMinor : Int) - (aMinor : Int)
    else (bPatch : Int) - (aPatch : Int)
  | _, _ => localeCompare b a

/-- Stable insertion of `a` into `l`: `a` goes before the first element it
does not compare strictly after. -/
def insertCmp (cmp : String → String → Int) (a : String) : List String → List String
  | [] => [a]
  | b :: l => if cmp a b ≤ 0 then a :: b :: l else b :: insertCmp cmp a l

/-- Model of the stable `Array.prototype.sort(comparator)`. -/
def sortByCmp (cmp : String → String → Int) : List String → List String
  | [] => []
  | a :: l => insertCmp cmp a (sortByCmp cmp l)

/-- `private getTagsForCommit(repoUrl, commitSha)` from `src/index.ts`,
applied to the result of `git ls-remote --tags <repoUrl>` (stdout on
success, stringified rejection on failure).  The surrounding `try`/`catch`
turns any failure into an empty tag list. -/
def getTagsForCommit (lsRemoteTags : Except String String) (commitSha : String) :
    List String :=
  match lsRemoteTags with
  | .error _ => []
  | .ok result =>
    let lines := (jsSplitLines (jsTrim result)).filter (fun l => jsTruthy (jsTrim l))
    let tags := lines.filterMap (tagEntryResult lines commitSha)
    sortByCmp tagCompare tags

/-- `private formatCommitWithTags(commitSha, tags)` from `src/index.ts`. -/
def formatCommitWithTags (commitSha : String) (tags : List String) : String :=
  let shortSha := jsDropLast commitSha (commitSha.data.length - 8)
  if tags.isEmpty then shortSha
  else
    let displayTags := tags.take 3
    let tagsString := String.intercalate ", " displayTags
    let moreTagsIndicator :=
      if tags.length > 3 then " (+" ++ toString (tags.length - 3) ++ " more)" else ""
    shortSha ++ " (" ++ tagsString ++ moreTagsIndicator ++ ")"

/-! ## Commit resolver -/

/-- Deterministic compilation of the regex `^\d+ commit ([a-f0-9]+)\t`
used on `git ls-tree` output. -/
def matchLsTree (result : String) : Option String :=
  let cs := result.data
  let ds := cs.takeWhile Char.isDigit
  let r1 := cs.dropWhile Char.isDigit
  if ds.isEmpty then none else
  if " commit ".data.isPrefixOf r1 then
    let r2 := r1.drop 8
    let sha := r2.takeWhile isHexDigitLower
    let r3 := r2.dropWhile isHexDigitLower
    if sha.isEmpty then none else
    match r3 with
    | '\t' :: _ => some (⟨sha⟩ : String)
    | _ => none
  else none

/-- Deterministic compilation of the regex `^([a-f0-9]+)\s+` used on the
first line of `git ls-remote` output. -/
def matchShaLine (l0 : String) : Option String :=
  let cs := l0.data
  let sha := cs.takeWhile isHexDigitLower
  let r1 := cs.dropWhile isHexDigitLower
  if sha.isEmpty then none else
  match r1 with
  | c :: _ => if isJsWhitespace c then some (⟨sha⟩ : String) else none
  | [] => none

/-- The git process boundary: results of the three `git.raw` invocations made
by `GitSubmoduleChecker` (`ls-tree HEAD <path>`, `ls-remote <url>
refs/heads/<branch>`, `ls-remote --tags <url>`), as stdout or a stringified
rejection. -/
structure GitOracle where
  lsTree : String → Except String String
  lsRemoteHead : String → String → Except String String
  lsRemoteTags : String → Except String String

/-- `private getCurrentSubmoduleCommit(submodulePath)` from `src/index.ts`.
The inner `throw new Error('Could not parse ...')` is re-wrapped by the
function's own `catch` (where `Error` stringifies with an `Error: ` prefix). -/
def getCurrentSubmoduleCommit (o : GitOracle) (submodulePath : String) :
    Except String String :=
  match o.lsTree submodulePath with
  | .error e =>
    .error ("Failed to get current submodule commit for " ++ submodulePath ++ ": " ++ e)
  | .ok result =>
    match matchLsTree result with
    | some sha => .ok sha
    | none =>
      .error ("Failed to get current submodule commit for " ++ submodulePath ++
        ": Error: Could not parse submodule commit from ls-tree output")

/-- `private getLatestRemoteCommit(repoUrl, branch)` from `src/index.ts`. -/
def getLatestRemoteCommit (o : GitOracle) (repoUrl branch : String) :
    Except String String :=
  let wrap (e : String) : Except String String :=
    .error ("Failed to get latest remote commit from " ++ repoUrl ++
      " (branch: " ++ branch ++ "): " ++ e)
  let notFound :=
    "Error: Could not find branch '" ++ branch ++ "' in remote repository"
  match o.lsRemoteHead repoUrl branch with
  | .error e => wrap e
  | .ok result =>
    match jsSplitLines (jsTrim result) with
    | [] => wrap notFound
    | l0 :: _ =>
      if jsTruthy l0 then
        match matchShaLine l0 with
        | some sha => .ok sha
        | none => wrap notFound
      else wrap notFound

/-! ## Submodule evaluator (`checkSubmodule` / `checkSubmodules`) -/

/-- Model of Node `path.basename` (POSIX): last path segment, ignoring
trailing separators. -/
def basename (p : String) : String :=
  ⟨((p.data.reverse.dropWhile (· == '/')).takeWhile (· != '/')).reverse⟩

/-- `private async checkSubmodule(submodule)` from `src/index.ts`: a thrown
error becomes `.error` with the thrown message. -/
def checkSubmodule (o : GitOracle) (defaultBranch : String) (sub : GitmodulesEntry) :
    Except String SubmoduleInfo :=
  match getCurrentSubmoduleCommit o sub.path with
  | .error e => .error e
  | .ok currentCommit =>
    let branchToCheck := jsOrElse sub.branch defaultBranch
    match getLatestRemoteCommit o sub.url branchToCheck with
    | .error e => .error e
    | .ok latestCommit =>
      let currentCommitTags := getTagsForCommit (o.lsRemoteTags sub.url) currentCommit
      let latestCommitTags := getTagsForCommit (o.lsRemoteTags sub.url) latestCommit
      let needsUpdate := currentCommit != latestCommit
      .ok
        { name := basename sub.path
          path := sub.path
          url := sub.url
          branch := some branchToCheck
          currentCommit := formatCommitWithTags currentCommit currentCommitTags
          latestCommit := formatCommitWithTags latestCommit latestCommitTags
          needsUpdate := needsUpdate
          error := none }

/-- The `catch` branch of the `checkSubmodules` loop. -/
def errorRecord (sub : GitmodulesEntry) (e : String) : SubmoduleInfo :=
  { name := sub.path
    path := sub.path
    url := sub.url
    branch := sub.branch
    currentCommit := "unknown"
    latestCommit := "unknown"
    needsUpdate := false
    error := some e }

/-- One iteration of the `for (const [index, submodule] of submodules.entries())`
loop: the record pushed for `submodule` (success or catch branch). -/
def evalOne (o : GitOracle) (defaultBranch : String) (sub : GitmodulesEntry) :
    SubmoduleInfo :=
  match checkSubmodule o defaultBranch sub with
  | .ok r => r
  | .error e => errorRecord sub e

/-- The whole `results` loop of `checkSubmodules`. -/
def runChecks (o : GitOracle) (defaultBranch : String)
    (subs : List GitmodulesEntry) : List SubmoduleInfo :=
  subs.map (evalOne o defaultBranch)

/-- `public async checkSubmodules()` from `src/index.ts`:
`gitmodulesExists` models `fs.existsSync(this.gitmodulesPath)` and
`content` the file content read on the existing path. -/
def checkSubmodules (o : GitOracle) (defaultBranch : String)
    (gitmodulesExists : Bool) (content : String) : List SubmoduleInfo :=
  if gitmodulesExists then
    runChecks o defaultBranch (parseGitmodules content)
  else []

/-! ## Status classification and result aggregation -/

/-- The three-way status of an evaluation, as read off a `SubmoduleInfo`
record by `printSummary` / `setOutputVariables` / `run` (`r.error` truthy ⇒
errored; else `r.needsUpdate` ⇒ needs update; else up to date). -/
inductive SubmoduleStatus
  | upToDate
  | needsUpdate
  | errored
deriving DecidableEq

def statusOf (r : SubmoduleInfo) : SubmoduleStatus :=
  if jsTruthyOpt r.error then .errored
  else if r.needsUpdate then .needsUpdate
  else .upToDate

/-- `EvaluationSummary` of the spec's data model. -/
structure EvaluationSummary where
  total : Nat
  upToDate : Nat
  needsUpdate : Nat
  errored : Nat
  outdatedPaths : List String
deriving DecidableEq

/-- The counts and outdated-path list computed by `printSummary` and
`setOutputVariables` in `src/index.ts` (both compute the same filters;
`setOutputVariables` additionally comma-joins `outdatedPaths`). -/
def summarize (results : List SubmoduleInfo) : EvaluationSummary :=
  { total := results.length
    upToDate :=
      (results.filter (fun r => !r.needsUpdate && !jsTruthyOpt r.error)).length
    needsUpdate := (results.filter (fun r => r.needsUpdate)).length
    errored := (results.filter (fun r => jsTruthyOpt r.error)).length
    outdatedPaths := (results.filter (fun r => r.needsUpdate)).map (fun r => r.path) }

/-! ## Notification deduplicator (`AzureDevOpsApi.addPullRequestCommentIfNotExists`) -/

structure PullRequestComment where
  id : Int
  content : String
  commentType : Int
deriving DecidableEq

structure PullRequestThread where
  id : Int
  comments : List PullRequestComment
  status : Int
deriving DecidableEq

/-- The `commentsResponse.value.some(thread => thread.comments.some(comment =>
comment.content === commentContent))` test. -/
def hasComment (threads : List PullRequestThread) (commentContent : String) : Bool :=
  threads.any fun thread =>
    thread.comments.any fun comment => comment.content == commentContent

/-- Modelled from the spec: the server-side effect of
`addPullRequestComment` is outside the source (an HTTP POST); per the
request body in the source and §4.6 of the spec ("if absent, the
collaborator posts it"), a successful POST appends one thread holding a
single comment whose content is the candidate body (`parentCommentId: 0`,
`commentType: 1`, thread `status: 1`; the server-assigned ids are modelled
as 0). -/
def postedThread (commentContent : String) : PullRequestThread :=
  { id := 0
    comments := [{ id := 0, content := commentContent, commentType := 1 }]
    status := 1 }

/-- `addPullRequestCommentIfNotExists` from the Azure DevOps helper, on the
success path of the two API round trips: returns the resulting thread
collection and whether a new comment was posted. -/
def addPullRequestCommentIfNotExists (threads : List PullRequestThread)
    (commentContent : String) : List PullRequestThread × Bool :=
  if hasComment threads commentContent then (threads, false)
  else (threads ++ [postedThread commentContent], true)

/-! ## Helper lemmas -/

theorem jsTruthy_append_left (a b : String) (h : jsTruthy a = true) :
    jsTruthy (a ++ b) = true := by
  simp only [jsTruthy, String.data_append, Bool.not_eq_true'] at *
  simp only [List.isEmpty_eq_false] at *
  simp [h]

theorem getCurrentSubmoduleCommit_error_truthy {o : GitOracle} {p e : String}
    (h : getCurrentSubmoduleCommit o p = .error e) : jsTruthy e = true := by
  have base : ∀ tail : String,
      jsTruthy ("Failed to get current submodule commit for " ++ p ++ ": " ++ tail)
        = true := by
    intro tail
    exact jsTruthy_append_left
      (("Failed to get current submodule commit for " ++ p) ++ ": ") tail
      (jsTruthy_append_left ("Failed to get current submodule commit for " ++ p) ": "
        (jsTruthy_append_left "Failed to get current submodule commit for " p
          (by decide)))
  cases hr : o.lsTree p with
  | error e0 =>
    simp only [getCurrentSubmoduleCommit, hr, Except.error.injEq] at h
    rw [← h]
    exact base e0
  | ok result =>
    simp only [getCurrentSubmoduleCommit, hr] at h
    cases hm : matchLsTree result with
    | some sha => rw [hm] at h; cases h
    | none =>
      simp only [hm, Except.error.injEq] at h
      rw [← h]
      exact base "Error: Could not parse submodule commit from ls-tree output"

theorem getLatestRemoteCommit_error_truthy {o : GitOracle} {u b e : String}
    (h : getLatestRemoteCommit o u b = .error e) : jsTruthy e = true := by
  have base : ∀ tail : String,
      jsTruthy ("Failed to get latest remote commit from " ++ u ++
        " (branch: " ++ b ++ "): " ++ tail) = true := by
    intro tail
    exact jsTruthy_append_left
      (((("Failed to get latest remote commit from " ++ u) ++ " (branch: ") ++ b) ++ "): ")
      tail
      (jsTruthy_append_left
        ((("Failed to get latest remote commit from " ++ u) ++ " (branch: ") ++ b) "): "
        (jsTruthy_append_left
          (("Failed to get latest remote commit from " ++ u) ++ " (branch: ") b
          (jsTruthy_append_left ("Failed to get latest remote commit from " ++ u)
            " (branch: "
            (jsTruthy_append_left "Failed to get latest remote commit from " u
              (by decide)))))
  cases hr : o.lsRemoteHead u b with
  | error e0 =>
    simp only [getLatestRemoteCommit, hr, Except.error.injEq] at h
    rw [← h]; exact base e0
  | ok result =>
    simp only [getLatestRemoteCommit, hr] at h
    cases hl : jsSplitLines (jsTrim result) with
    | nil =>
      simp only [hl, Except.error.injEq] at h
      rw [← h]; exact base _
    | cons l0 rest =>
      simp only [hl] at h
      by_cases ht : jsTruthy l0 = true
      · rw [if_pos ht] at h
        cases hm : matchShaLine l0 with
        | some sha => rw [hm] at h; cases h
        | none =>
          simp only [hm, Except.error.injEq] at h
          rw [← h]; exact base _
      · rw [if_neg ht] at h
        simp only [Except.error.injEq] at h
        rw [← h]; exact base _

theorem statusOf_errorRecord {sub : GitmodulesEntry} {e : String}
    (he : jsTruthy e = true) : statusOf (errorRecord sub e) = .errored := by
  simp [statusOf, errorRecord, jsTruthyOpt, he]

/-- C1: for every evaluation produced by a run, the status classification is
a trichotomy — `upToDate` iff both commit resolutions succeeded with equal
shas (compared byte-for-byte), `needsUpdate` iff both succeeded with
different shas, `errored` iff either resolution failed; in particular no
evaluation is both `needsUpdate` and `errored`. -/
theorem claim_C1_status_trichotomy (o : GitOracle) (defaultBranch : String)
    (sub : GitmodulesEntry) :
    (statusOf (evalOne o defaultBranch sub) = .upToDate ↔
      ∃ c, getCurrentSubmoduleCommit o sub.path = .ok c ∧
        getLatestRemoteCommit o sub.url (jsOrElse sub.branch defaultBranch) = .ok c) ∧
    (statusOf (evalOne o defaultBranch sub) = .needsUpdate ↔
      ∃ c l, getCurrentSubmoduleCommit o sub.path = .ok c ∧
        getLatestRemoteCommit o sub.url (jsOrElse sub.branch defaultBranch) = .ok l ∧
        c ≠ l) ∧
    (statusOf (evalOne o defaultBranch sub) = .errored ↔
      ((∃ e, getCurrentSubmoduleCommit o sub.path = .error e) ∨
       (∃ e, getLatestRemoteCommit o sub.url (jsOrElse sub.branch defaultBranch) = .error e))) ∧
    ¬(statusOf (evalOne o defaultBranch sub) = .needsUpdate ∧
      statusOf (evalOne o defaultBranch sub) = .errored) := by
  cases hc : getCurrentSubmoduleCommit o sub.path with
  | error e =>
    have hs : statusOf (evalOne o defaultBranch sub) = .errored := by
      simp only [evalOne, checkSubmodule, hc]
      exact statusOf_errorRecord (getCurrentSubmoduleCommit_error_truthy hc)
    refine ⟨?_, ?_, ?_, ?_⟩
    · simp [hs]
    · simp [hs]
    · simp [hs]
    · simp [hs]
  | ok c =>
    cases hl : getLatestRemoteCommit o sub.url (jsOrElse sub.branch defaultBranch) with
    | error e =>
      have hs : statusOf (evalOne o defaultBranch sub) = .errored := by
        simp only [evalOne, checkSubmodule, hc, hl]
        exact statusOf_errorRecord (getLatestRemoteCommit_error_truthy hl)
      refine ⟨?_, ?_, ?_, ?_⟩
      · simp [hs]
      · simp [hs]
      · simp [hs]
      · simp [hs]
    | ok l =>
      have hs : statusOf (evalOne o defaultBranch sub) =
          (if c != l then .needsUpdate else .upToDate) := by
        simp only [evalOne, checkSubmodule, hc, hl]
        by_cases hne : c = l
        · simp [statusOf, jsTruthyOpt, hne]
        · simp [statusOf, jsTruthyOpt, bne_iff_ne, hne]
      refine ⟨?_, ?_, ?_, ?_⟩ <;> rw [hs] <;> by_cases hcl : c = l
      · subst hcl; simp [hc, hl]
      · have hlc : l ≠ c := fun h => hcl h.symm
        simp [hcl, hlc, hc, hl]
      · subst hcl; simp [hc, hl]
      · simp [hcl, hc, hl]
      · subst hcl; simp [hc, hl]
      · simp [hcl, hc, hl]
      · subst hcl; simp
      · simp [hcl]

/-- C5: tag resolution is best-effort — a failed `ls-remote --tags` yields an
empty tag list rather than a thrown error, and the tag oracle has no
influence on an evaluation's error field or status. -/
theorem claim_C5_tags_never_fail :
    (∀ (e sha : String), getTagsForCommit (.error e) sha = []) ∧
    (∀ (lsTree : String → Except String String)
       (lsRemoteHead : String → String → Except String String)
       (t1 t2 : String → Except String String)
       (defaultBranch : String) (sub : GitmodulesEntry),
      (evalOne ⟨lsTree, lsRemoteHead, t1⟩ defaultBranch sub).error =
        (evalOne ⟨lsTree, lsRemoteHead, t2⟩ defaultBranch sub).error ∧
      statusOf (evalOne ⟨lsTree, lsRemoteHead, t1⟩ defaultBranch sub) =
        statusOf (evalOne ⟨lsTree, lsRemoteHead, t2⟩ defaultBranch sub)) := by
  refine ⟨fun e sha => rfl, fun lsTree lsRemoteHead t1 t2 defaultBranch sub => ?_⟩
  have hc : getCurrentSubmoduleCommit ⟨lsTree, lsRemoteHead, t2⟩ sub.path =
      getCurrentSubmoduleCommit ⟨lsTree, lsRemoteHead, t1⟩ sub.path := rfl
  have hl : ∀ b, getLatestRemoteCommit ⟨lsTree, lsRemoteHead, t2⟩ sub.url b =
      getLatestRemoteCommit ⟨lsTree, lsRemoteHead, t1⟩ sub.url b := fun b => rfl
  cases hcc : getCurrentSubmoduleCommit ⟨lsTree, lsRemoteHead, t1⟩ sub.path with
  | error e => simp [evalOne, checkSubmodule, hcc, hc]
  | ok c =>
    cases hll : getLatestRemoteCommit ⟨lsTree, lsRemoteHead, t1⟩ sub.url
        (jsOrElse sub.branch defaultBranch) with
    | error e => simp [evalOne, checkSubmodule, hcc, hc, hl, hll]
    | ok l => simp [evalOne, checkSubmodule, hcc, hc, hl, hll, statusOf, jsTruthyOpt]

/-- C9: per-submodule failures are isolated — the run produces exactly one
record per declaration, the i-th record depends only on the i-th
declaration, and a declaration whose evaluation fails becomes the single
errored record carrying the failure message. -/
theorem claim_C9_failure_isolation (o : GitOracle) (defaultBranch : String)
    (subs : List GitmodulesEntry) :
    (runChecks o defaultBranch subs).length = subs.length ∧
    (∀ i : Nat, (runChecks o defaultBranch subs)[i]? =
      (subs[i]?).map (evalOne o defaultBranch)) ∧
    (∀ (sub : GitmodulesEntry) (e : String),
      checkSubmodule o defaultBranch sub = .error e →
      evalOne o defaultBranch sub = errorRecord sub e) := by
  refine ⟨by simp [runChecks], fun i => by simp [runChecks], fun sub e h => ?_⟩
  simp [evalOne, h]

/-- C10: the errored record carries `needsUpdate = false`, the literal
`"unknown"` for both commits, and the declaration's path (also used as the
name), url and branch unchanged. -/
theorem claim_C10_error_record_shape (o : GitOracle) (defaultBranch : String)
    (sub : GitmodulesEntry) (e : String)
    (h : checkSubmodule o defaultBranch sub = .error e) :
    evalOne o defaultBranch sub =
      { name := sub.path
        path := sub.path
        url := sub.url
        branch := sub.branch
        currentCommit := "unknown"
        latestCommit := "unknown"
        needsUpdate := false
        error := some e } := by
  simp only [evalOne, h]
  rfl

/-- A git oracle whose every remote interaction fails. -/
def oracleAllFail : GitOracle :=
  ⟨fun _ => .error "network down", fun _ _ => .error "network down",
   fun _ => .error "network down"⟩

/-- A git oracle that resolves the current commit but cannot reach the
remote. -/
def oracleRemoteFail : GitOracle :=
  ⟨fun _ => .ok "160000 commit abcdef1234567890abcdef1234567890abcdef12\tlibs/a",
   fun _ _ => .error "timeout", fun _ => .error "timeout"⟩

def declA : GitmodulesEntry := ⟨"libs/a", "https://example.com/a.git", none⟩

theorem claim_C9_failure_isolation_witness :
    evalOne oracleAllFail "main" declA =
      errorRecord declA
        "Failed to get current submodule commit for libs/a: network down" :=
  (claim_C9_failure_isolation oracleAllFail "main" [declA]).2.2 declA
    "Failed to get current submodule commit for libs/a: network down" rfl

theorem claim_C10_error_record_shape_witness :
    evalOne oracleRemoteFail "main" declA =
      { name := "libs/a"
        path := "libs/a"
        url := "https://example.com/a.git"
        branch := none
        currentCommit := "unknown"
        latestCommit := "unknown"
        needsUpdate := false
        error := some
          "Failed to get latest remote commit from https://example.com/a.git (branch: main): timeout" } :=
  claim_C10_error_record_shape oracleRemoteFail "main" declA
    "Failed to get latest remote commit from https://example.com/a.git (branch: main): timeout"
    rfl

/-- C7: the PR-comment deduplication is idempotent on verbatim match — a
candidate body already present verbatim in some existing thread causes no
post, and a second attempt with the same candidate never posts. -/
theorem claim_C7_dedup_idempotent (threads : List PullRequestThread)
    (commentContent : String) :
    (hasComment threads commentContent = true →
      addPullRequestCommentIfNotExists threads commentContent = (threads, false)) ∧
    addPullRequestCommentIfNotExists
        (addPullRequestCommentIfNotExists threads commentContent).1 commentContent =
      ((addPullRequestCommentIfNotExists threads commentContent).1, false) := by
  constructor
  · intro h
    simp [addPullRequestCommentIfNotExists, h]
  · by_cases h : hasComment threads commentContent = true
    · simp [addPullRequestCommentIfNotExists, h]
    · have hpost : hasComment (threads ++ [postedThread commentContent])
          commentContent = true := by
        simp [hasComment, postedThread, List.any_append]
      simp [addPullRequestCommentIfNotExists, h, hpost]

theorem claim_C7_dedup_idempotent_witness :
    addPullRequestCommentIfNotExists [postedThread "submodule libs/a is outdated"]
        "submodule libs/a is outdated" =
      ([postedThread "submodule libs/a is outdated"], false) :=
  (claim_C7_dedup_idempotent [postedThread "submodule libs/a is outdated"]
    "submodule libs/a is outdated").1 (by decide)

/-- C6: `summarize` is a pure function of the evaluation list — for every
list satisfying the status invariant (a needs-update record is never also
errored, which holds of every record the run produces), the counts are the
per-status counts and `outdatedPaths` lists the paths of exactly the
needs-update records in input order. -/
theorem claim_C6_summarize (results : List SubmoduleInfo)
    (hinv : ∀ r ∈ results, ¬(r.needsUpdate = true ∧ jsTruthyOpt r.error = true)) :
    summarize results =
      { total := results.length
        upToDate := (results.filter (fun r => statusOf r == .upToDate)).length
        needsUpdate := (results.filter (fun r => statusOf r == .needsUpdate)).length
        errored := (results.filter (fun r => statusOf r == .errored)).length
        outdatedPaths :=
          (results.filter (fun r => statusOf r == .needsUpdate)).map
            (fun r => r.path) } := by
  have h1 : results.filter (fun r => !r.needsUpdate && !jsTruthyOpt r.error) =
      results.filter (fun r => statusOf r == .upToDate) := by
    refine List.filter_congr fun r _ => ?_
    cases hn : r.needsUpdate <;> cases ht : jsTruthyOpt r.error <;>
      simp [statusOf, hn, ht]
  have h2 : results.filter (fun r => r.needsUpdate) =
      results.filter (fun r => statusOf r == .needsUpdate) := by
    refine List.filter_congr fun r hr => ?_
    cases hn : r.needsUpdate <;> cases ht : jsTruthyOpt r.error <;>
      simp [statusOf, hn, ht]
    exact absurd ⟨hn, ht⟩ (hinv r hr)
  have h3 : results.filter (fun r => jsTruthyOpt r.error) =
      results.filter (fun r => statusOf r == .errored) := by
    refine List.filter_congr fun r _ => ?_
    cases hn : r.needsUpdate <;> cases ht : jsTruthyOpt r.error <;>
      simp [statusOf, hn, ht]
  simp only [summarize, h1, h2, h3]

def recUpToDate : SubmoduleInfo :=
  ⟨"a", "libs/a", "u", some "main", "abc", "abc", false, none⟩

def recNeeds1 : SubmoduleInfo :=
  ⟨"b", "libs/b", "u", some "main", "abc", "def", true, none⟩

def recErrored : SubmoduleInfo :=
  ⟨"c", "libs/c", "u", none, "unknown", "unknown", false, some "boom"⟩

def recNeeds2 : SubmoduleInfo :=
  ⟨"d", "libs/d", "u", some "main", "v1", "v2", true, none⟩

theorem claim_C6_summarize_witness :
    summarize [recUpToDate, recNeeds1, recErrored, recNeeds2] =
      { total := 4
        upToDate := 1
        needsUpdate := 2
        errored := 1
        outdatedPaths := ["libs/b", "libs/d"] } :=
  (claim_C6_summarize [recUpToDate, recNeeds1, recErrored, recNeeds2]
    (by decide)).trans (by decide)

/-- C3: annotated-tag dereferencing — a raw tag-object entry is suppressed
whenever a dereferenced `^\x7b\x7d` twin exists in the listing, a
dereferenced entry is matched against its own sha and reported with the
suffix stripped, and on the listing `[A "refs/tags/v1.0^\x7b\x7d",
B "refs/tags/v1.0"]` resolving `A` reports `"v1.0"` exactly once. -/
theorem claim_C3_tag_dereferencing :
    (∀ (lines : List String) (sha line tagCommit tagName : String),
      matchTagLine line = some (tagCommit, tagName) →
      jsEndsWith tagName derefSuffix = false →
      lines.any (fun l => jsIncludes l ("refs/tags/" ++ tagName ++ derefSuffix)) = true →
      tagEntryResult lines sha line = none) ∧
    (∀ (lines : List String) (sha line tagCommit tagName : String),
      matchTagLine line = some (tagCommit, tagName) →
      jsEndsWith tagName derefSuffix = true →
      tagEntryResult lines sha line =
        (if tagCommit == sha then some (jsDropLast tagName 3) else none)) ∧
    (getTagsForCommit
        (.ok ("aaaaaaaaaaaaaaaaaaaaaaaaaaaaaaaaaaaaaaaa\trefs/tags/v1.0^\x7b\x7d\n" ++
          "bbbbbbbbbbbbbbbbbbbbbbbbbbbbbbbbbbbbbbbb\trefs/tags/v1.0"))
        "aaaaaaaaaaaaaaaaaaaaaaaaaaaaaaaaaaaaaaaa" = ["v1.0"] ∧
      (getTagsForCommit
        (.ok ("aaaaaaaaaaaaaaaaaaaaaaaaaaaaaaaaaaaaaaaa\trefs/tags/v1.0^\x7b\x7d\n" ++
          "bbbbbbbbbbbbbbbbbbbbbbbbbbbbbbbbbbbbbbbb\trefs/tags/v1.0"))
        "aaaaaaaaaaaaaaaaaaaaaaaaaaaaaaaaaaaaaaaa").count "v1.0" = 1) := by
  refine ⟨fun lines sha line tagCommit tagName hm hsuf hderef => ?_,
    fun lines sha line tagCommit tagName hm hsuf => ?_, by decide, by decide⟩
  · simp [tagEntryResult, hm, hsuf, hderef]
  · simp [tagEntryResult, hm, hsuf]

theorem claim_C3_tag_dereferencing_witness :
    tagEntryResult
      ["aaaaaaaaaaaaaaaaaaaaaaaaaaaaaaaaaaaaaaaa\trefs/tags/v1.0^\x7b\x7d",
       "bbbbbbbbbbbbbbbbbbbbbbbbbbbbbbbbbbbbbbbb\trefs/tags/v1.0"]
      "bbbbbbbbbbbbbbbbbbbbbbbbbbbbbbbbbbbbbbbb"
      "bbbbbbbbbbbbbbbbbbbbbbbbbbbbbbbbbbbbbbbb\trefs/tags/v1.0" = none :=
  claim_C3_tag_dereferencing.1
    ["aaaaaaaaaaaaaaaaaaaaaaaaaaaaaaaaaaaaaaaa\trefs/tags/v1.0^\x7b\x7d",
     "bbbbbbbbbbbbbbbbbbbbbbbbbbbbbbbbbbbbbbbb\trefs/tags/v1.0"]
    "bbbbbbbbbbbbbbbbbbbbbbbbbbbbbbbbbbbbbbbb"
    "bbbbbbbbbbbbbbbbbbbbbbbbbbbbbbbbbbbbbbbb\trefs/tags/v1.0"
    "bbbbbbbbbbbbbbbbbbbbbbbbbbbbbbbbbbbbbbbb" "v1.0" (by decide) (by decide)
    (by decide)

/-- Sign of an integer comparator value. -/
def intSign (n : Int) : Int := if n < 0 then -1 else if n = 0 then 0 else 1

def ordToInt : Ordering → Int
  | .lt => -1
  | .eq => 0
  | .gt => 1

/-- Lexicographic three-way comparison of (major, minor, patch) triples. -/
def tripleCompare (x y : Nat × Nat × Nat) : Ordering :=
  match compare x.1 y.1 with
  | .eq =>
    match compare x.2.1 y.2.1 with
    | .eq => compare x.2.2 y.2.2
    | o => o
  | o => o

theorem intSign_sub (m n : Nat) : intSign ((m : Int) - n) = ordToInt (compare m n) := by
  rcases Nat.lt_trichotomy m n with h | h | h
  · rw [Nat.compare_eq_lt.mpr h]
    simp only [intSign, ordToInt]
    rw [if_pos (by omega)]
  · subst h
    rw [Nat.compare_eq_eq.mpr rfl]
    simp [intSign, ordToInt]
  · rw [Nat.compare_eq_gt.mpr h]
    simp only [intSign, ordToInt]
    rw [if_neg (by omega), if_neg (by omega)]

/-- C4: the tag comparator orders a pair numerically (major desc, minor
desc, patch desc) when both names match the optional-`v` MAJOR.MINOR.PATCH
pattern, falls back to reverse string comparison when either side fails to
parse, and `["v1.2.0", "v1.10.0", "v1.9.5"]` sorts to
`["v1.10.0", "v1.9.5", "v1.2.0"]`. -/
theorem claim_C4_version_sort :
    (∀ (a b : String) (va vb : Nat × Nat × Nat),
      parseVersion a = some va → parseVersion b = some vb →
      intSign (tagCompare a b) = ordToInt (tripleCompare vb va)) ∧
    (∀ a b : String, parseVersion a = none ∨ parseVersion b = none →
      tagCompare a b = localeCompare b a) ∧
    sortByCmp tagCompare ["v1.2.0", "v1.10.0", "v1.9.5"] =
      ["v1.10.0", "v1.9.5", "v1.2.0"] := by
  refine ⟨?_, ?_, by decide⟩
  · rintro a b ⟨a1, a2, a3⟩ ⟨b1, b2, b3⟩ ha hb
    simp only [tagCompare, ha, hb, tripleCompare]
    by_cases h1 : a1 = b1
    · subst h1
      rw [Nat.compare_eq_eq.mpr rfl]
      simp only [ne_eq, not_true_eq_false, if_false, ite_not]
      by_cases h2 : a2 = b2
      · subst h2
        rw [Nat.compare_eq_eq.mpr rfl]
        simp only [if_pos rfl]
        exact intSign_sub b3 a3
      · rw [if_neg h2]
        rcases Nat.lt_trichotomy a2 b2 with h | h | h
        · rw [Nat.compare_eq_gt.mpr h]
          rw [show intSign ((b2 : Int) - a2) = ordToInt (compare b2 a2) from
            intSign_sub b2 a2, Nat.compare_eq_gt.mpr h]
        · exact absurd h h2
        · rw [Nat.compare_eq_lt.mpr h]
          rw [show intSign ((b2 : Int) - a2) = ordToInt (compare b2 a2) from
            intSign_sub b2 a2, Nat.compare_eq_lt.mpr h]
    · rw [if_pos h1]
      rcases Nat.lt_trichotomy a1 b1 with h | h | h
      · rw [Nat.compare_eq_gt.mpr h]
        rw [intSign_sub b1 a1, Nat.compare_eq_gt.mpr h]
      · exact absurd h h1
      · rw [Nat.compare_eq_lt.mpr h]
        rw [intSign_sub b1 a1, Nat.compare_eq_lt.mpr h]
  · rintro a b (h | h)
    · simp only [tagCompare, h]
    · cases ha : parseVersion a with
      | none => simp only [tagCompare, ha, h]
      | some va => simp only [tagCompare, ha, h]

theorem claim_C4_version_sort_witness :
    (intSign (tagCompare "v1.2.0" "v1.10.0") =
      ordToInt (tripleCompare (1, 10, 0) (1, 2, 0))) ∧
    tagCompare "zzz" "v1.0.0" = localeCompare "v1.0.0" "zzz" :=
  ⟨claim_C4_version_sort.1 "v1.2.0" "v1.10.0" (1, 2, 0) (1, 10, 0) (by decide)
      (by decide),
   claim_C4_version_sort.2.1 "zzz" "v1.0.0" (Or.inl (by decide))⟩

/-! ## Valid configuration texts

A valid `.gitmodules` text is modelled as a rendered list of `[submodule]`
blocks (§6 of the spec): each block is a section header followed by body
lines — `path` / `url` / `branch` assignments (in any order, with
repetitions allowed) and inert lines (comments, unknown keys, blanks). -/

inductive BlockLine
  | pathLine (v : String)
  | urlLine (v : String)
  | branchLine (v : String)
  | otherLine (s : String)
deriving DecidableEq

structure ConfigBlock where
  name : String
  body : List BlockLine
deriving DecidableEq

def renderLine : BlockLine → String
  | .pathLine v => "\tpath = " ++ v
  | .urlLine v => "\turl = " ++ v
  | .branchLine v => "\tbranch = " ++ v
  | .otherLine s => s

def headerOf (b : ConfigBlock) : String := "[submodule \"" ++ b.name ++ "\"]"

def blockLines (b : ConfigBlock) : List String :=
  headerOf b :: b.body.map renderLine

def configLines (blocks : List ConfigBlock) : List String :=
  (blocks.map blockLines).flatten

/-- The rendered text: the lines joined with `'\n'`. -/
def renderConfig (blocks : List ConfigBlock) : String :=
  ⟨List.intercalate ['\n'] ((configLines blocks).map String.data)⟩

/-- A well-formed assignment value: nonempty, no surrounding whitespace, no
newline (so the rendered line survives splitting and trimming intact). -/
def cleanValue (v : String) : Bool :=
  !v.data.isEmpty && (v.data.dropWhile isJsWhitespace == v.data) &&
  (v.data.reverse.dropWhile isJsWhitespace == v.data.reverse) &&
  v.data.all (fun c => !(c == '\n'))

/-- An inert body line: no newline, and recognized by none of the parser's
four `startsWith` tests. -/
def inertLine (s : String) : Bool :=
  s.data.all (fun c => !(c == '\n')) &&
  !jsStartsWith (jsTrim s) "[submodule " &&
  !jsStartsWith (jsTrim s) "path = " &&
  !jsStartsWith (jsTrim s) "url = " &&
  !jsStartsWith (jsTrim s) "branch = "

def validBlockLine : BlockLine → Bool
  | .pathLine v => cleanValue v
  | .urlLine v => cleanValue v
  | .branchLine v => cleanValue v
  | .otherLine s => inertLine s

def validBlock (b : ConfigBlock) : Bool :=
  b.name.data.all (fun c => !(c == '\n')) && b.body.all validBlockLine

def hasPathLine : BlockLine → Bool
  | .pathLine _ => true
  | _ => false

def hasUrlLine : BlockLine → Bool
  | .urlLine _ => true
  | _ => false

/-- A block that sets both `path` and `url` before the next section header
or end of input. -/
def blockComplete (b : ConfigBlock) : Bool :=
  b.body.any hasPathLine && b.body.any hasUrlLine

theorem cleanValue_spec {v : String} (h : cleanValue v = true) :
    v.data ≠ [] ∧ v.data.dropWhile isJsWhitespace = v.data ∧
      v.data.reverse.dropWhile isJsWhitespace = v.data.reverse ∧
      '\n' ∉ v.data := by
  simp only [cleanValue, Bool.and_eq_true, Bool.not_eq_true', List.isEmpty_eq_false,
    beq_iff_eq, List.all_eq_true, Bool.not_eq_true, beq_eq_false_iff_ne, ne_eq] at h
  exact ⟨h.1.1.1, h.1.1.2, h.1.2, fun hmem => (h.2 _ hmem) rfl⟩

theorem isPrefixOf_append_self (l1 l2 : List Char) :
    l1.isPrefixOf (l1 ++ l2) = true := by
  induction l1 with
  | nil => simp [List.isPrefixOf]
  | cons a t ih => simp [List.isPrefixOf, ih]

theorem isPrefixOf_ne_head {a b : Char} (l1 l2 : List Char) (h : (a == b) = false) :
    (a :: l1).isPrefixOf (b :: l2) = false := by
  simp [List.isPrefixOf, h]

theorem mk_data_eq (s : String) : (⟨s.data⟩ : String) = s := rfl

/-- Trimming a rendered assignment line `"\t<key> = " ++ v` with a clean
value yields `"<key> = " ++ v`. -/
theorem jsTrim_keyLine (pre v : String)
    (hpre1 : ∃ c cs, pre.data = c :: cs ∧ isJsWhitespace c = false)
    (hv1 : v.data ≠ [])
    (hv2 : v.data.reverse.dropWhile isJsWhitespace = v.data.reverse) :
    jsTrim ("\t" ++ pre ++ v) = pre ++ v := by
  obtain ⟨c, cs, hsplit, hc⟩ := hpre1
  have hdata : ("\t" ++ pre ++ v).data = '\t' :: (pre.data ++ v.data) := by
    simp [String.data_append]
  apply String.ext
  show jsTrimList ("\t" ++ pre ++ v).data = (pre ++ v).data
  rw [hdata, String.data_append]
  unfold jsTrimList
  rw [List.dropWhile_cons, if_pos (by decide)]
  have hfront : (pre.data ++ v.data).dropWhile isJsWhitespace = pre.data ++ v.data := by
    rw [hsplit, List.cons_append, List.dropWhile_cons, if_neg (by simp [hc])]
  rw [hfront, List.reverse_append, List.dropWhile_append, hv2]
  rw [if_neg (by simp [List.isEmpty_eq_false]; exact hv1)]
  rw [← List.reverse_append, List.reverse_reverse]

/-- Trimming a rendered section header leaves it unchanged. -/
theorem jsTrim_headerOf (b : ConfigBlock) : jsTrim (headerOf b) = headerOf b := by
  have hdata : (headerOf b).data =
      '[' :: ("submodule \"".data ++ b.name.data ++ "\"]".data) := by
    simp [headerOf, String.data_append]
  apply String.ext
  show jsTrimList (headerOf b).data = (headerOf b).data
  rw [hdata]
  unfold jsTrimList
  rw [List.dropWhile_cons, if_neg (by decide)]
  have hrev : ('[' :: ("submodule \"".data ++ b.name.data ++ "\"]".data)).reverse =
      ']' :: ('"' :: (b.name.data.reverse ++ ("submodule \"".data.reverse ++ ['[']))) := by
    simp [List.reverse_append]
  rw [hrev, List.dropWhile_cons, if_neg (by decide), ← hrev, List.reverse_reverse]

theorem jsTrim_clean {v : String} (hfront : v.data.dropWhile isJsWhitespace = v.data)
    (hback : v.data.reverse.dropWhile isJsWhitespace = v.data.reverse) :
    jsTrim v = v := by
  apply String.ext
  show jsTrimList v.data = v.data
  unfold jsTrimList
  rw [hfront, hback, List.reverse_reverse]

theorem stepLine_pathLine (subs : List GitmodulesEntry) (p : PendingEntry)
    (v : String) (hv : cleanValue v = true) :
    stepLine (subs, p) ("\tpath = " ++ v) = (subs, { p with path := some v }) := by
  obtain ⟨hne, hfront, hback, _⟩ := cleanValue_spec hv
  have htrim : jsTrim ("\tpath = " ++ v) = "path = " ++ v := by
    rw [show ("\tpath = " ++ v : String) = ("\t" ++ "path = " ++ v) from rfl]
    exact jsTrim_keyLine "path = " v ⟨'p', _, rfl, by decide⟩ hne hback
  have h1 : jsStartsWith ("path = " ++ v) "[submodule " = false := by
    unfold jsStartsWith
    rw [String.data_append]
    exact isPrefixOf_ne_head _ _ (by decide)
  have h2 : jsStartsWith ("path = " ++ v) "path = " = true := by
    unfold jsStartsWith
    rw [String.data_append]
    exact isPrefixOf_append_self _ _
  have hsub : jsSubstringFrom ("path = " ++ v) 7 = v := by
    apply String.ext
    show (("path = " ++ v).data).drop 7 = v.data
    rw [String.data_append]
    exact List.drop_left "path = ".data v.data
  simp only [stepLine, htrim, h1, h2, hsub, jsTrim_clean hfront hback,
    Bool.false_eq_true, if_false, if_true]

theorem stepLine_urlLine (subs : List GitmodulesEntry) (p : PendingEntry)
    (v : String) (hv : cleanValue v = true) :
    stepLine (subs, p) ("\turl = " ++ v) = (subs, { p with url := some v }) := by
  obtain ⟨hne, hfront, hback, _⟩ := cleanValue_spec hv
  have htrim : jsTrim ("\turl = " ++ v) = "url = " ++ v := by
    rw [show ("\turl = " ++ v : String) = ("\t" ++ "url = " ++ v) from rfl]
    exact jsTrim_keyLine "url = " v ⟨'u', _, rfl, by decide⟩ hne hback
  have h1 : jsStartsWith ("url = " ++ v) "[submodule " = false := by
    unfold jsStartsWith
    rw [String.data_append]
    exact isPrefixOf_ne_head _ _ (by decide)
  have h2 : jsStartsWith ("url = " ++ v) "path = " = false := by
    unfold jsStartsWith
    rw [String.data_append]
    exact isPrefixOf_ne_head _ _ (by decide)
  have h3 : jsStartsWith ("url = " ++ v) "url = " = true := by
    unfold jsStartsWith
    rw [String.data_append]
    exact isPrefixOf_append_self _ _
  have hsub : jsSubstringFrom ("url = " ++ v) 6 = v := by
    apply String.ext
    show (("url = " ++ v).data).drop 6 = v.data
    rw [String.data_append]
    exact List.drop_left "url = ".data v.data
  simp only [stepLine, htrim, h1, h2, h3, hsub, jsTrim_clean hfront hback,
    Bool.false_eq_true, if_false, if_true]

theorem stepLine_branchLine (subs : List GitmodulesEntry) (p : PendingEntry)
    (v : String) (hv : cleanValue v = true) :
    stepLine (subs, p) ("\tbranch = " ++ v) = (subs, { p with branch := some v }) := by
  obtain ⟨hne, hfront, hback, _⟩ := cleanValue_spec hv
  have htrim : jsTrim ("\tbranch = " ++ v) = "branch = " ++ v := by
    rw [show ("\tbranch = " ++ v : String) = ("\t" ++ "branch = " ++ v) from rfl]
    exact jsTrim_keyLine "branch = " v ⟨'b', _, rfl, by decide⟩ hne hback
  have h1 : jsStartsWith ("branch = " ++ v) "[submodule " = false := by
    unfold jsStartsWith
    rw [String.data_append]
    exact isPrefixOf_ne_head _ _ (by decide)
  have h2 : jsStartsWith ("branch = " ++ v) "path = " = false := by
    unfold jsStartsWith
    rw [String.data_append]
    exact isPrefixOf_ne_head _ _ (by decide)
  have h3 : jsStartsWith ("branch = " ++ v) "url = " = false := by
    unfold jsStartsWith
    rw [String.data_append]
    exact isPrefixOf_ne_head _ _ (by decide)
  have h4 : jsStartsWith ("branch = " ++ v) "branch = " = true := by
    unfold jsStartsWith
    rw [String.data_append]
    exact isPrefixOf_append_self _ _
  have hsub : jsSubstringFrom ("branch = " ++ v) 9 = v := by
    apply String.ext
    show (("branch = " ++ v).data).drop 9 = v.data
    rw [String.data_append]
    exact List.drop_left "branch = ".data v.data
  simp only [stepLine, htrim, h1, h2, h3, h4, hsub, jsTrim_clean hfront hback,
    Bool.false_eq_true, if_false, if_true]

theorem stepLine_inert (st : List GitmodulesEntry × PendingEntry) (s : String)
    (h : inertLine s = true) : stepLine st s = st := by
  simp only [inertLine, Bool.and_eq_true, Bool.not_eq_true'] at h
  obtain ⟨⟨⟨⟨_, h1⟩, h2⟩, h3⟩, h4⟩ := h
  simp [stepLine, h1, h2, h3, h4]

theorem stepLine_header (subs : List GitmodulesEntry) (p : PendingEntry)
    (b : ConfigBlock) :
    stepLine (subs, p) (headerOf b) = (flushPending subs p, emptyPending) := by
  have hstart : jsStartsWith (headerOf b) "[submodule " = true := by
    unfold jsStartsWith
    have hdata : (headerOf b).data =
        "[submodule ".data ++ ('"' :: (b.name.data ++ "\"]".data)) := rfl
    rw [hdata]
    exact isPrefixOf_append_self _ _
  simp [stepLine, jsTrim_headerOf, hstart]

/-- Effect of one body line on the pending entry. -/
def applyBodyLine (p : PendingEntry) : BlockLine → PendingEntry
  | .pathLine v => { p with path := some v }
  | .urlLine v => { p with url := some v }
  | .branchLine v => { p with branch := some v }
  | .otherLine _ => p

def foldBody (p : PendingEntry) (body : List BlockLine) : PendingEntry :=
  body.foldl applyBodyLine p

theorem foldl_stepLine_body (body : List BlockLine)
    (hbody : body.all validBlockLine = true) (subs : List GitmodulesEntry)
    (p : PendingEntry) :
    List.foldl stepLine (subs, p) (body.map renderLine) = (subs, foldBody p body) := by
  induction body generalizing p with
  | nil => rfl
  | cons line rest ih =>
    rw [List.all_cons, Bool.and_eq_true] at hbody
    obtain ⟨hline, hrest⟩ := hbody
    cases line with
    | pathLine v =>
      rw [List.map_cons, List.foldl_cons,
        show renderLine (.pathLine v) = "\tpath = " ++ v from rfl,
        stepLine_pathLine subs p v hline]
      exact ih hrest _
    | urlLine v =>
      rw [List.map_cons, List.foldl_cons,
        show renderLine (.urlLine v) = "\turl = " ++ v from rfl,
        stepLine_urlLine subs p v hline]
      exact ih hrest _
    | branchLine v =>
      rw [List.map_cons, List.foldl_cons,
        show renderLine (.branchLine v) = "\tbranch = " ++ v from rfl,
        stepLine_branchLine subs p v hline]
      exact ih hrest _
    | otherLine s =>
      rw [List.map_cons, List.foldl_cons,
        show renderLine (.otherLine s) = s from rfl,
        stepLine_inert (subs, p) s hline]
      exact ih hrest _

theorem foldBody_path (body : List BlockLine)
    (hbody : body.all validBlockLine = true) (p : PendingEntry) :
    jsTruthyOpt (foldBody p body).path =
      (jsTruthyOpt p.path || body.any hasPathLine) := by
  induction body generalizing p with
  | nil => simp [foldBody]
  | cons line rest ih =>
    rw [List.all_cons, Bool.and_eq_true] at hbody
    obtain ⟨hline, hrest⟩ := hbody
    cases line with
    | pathLine v =>
      have hne := (cleanValue_spec hline).1
      have htr : jsTruthyOpt (some v) = true := by
        simp [jsTruthyOpt, jsTruthy, List.isEmpty_eq_false, hne]
      rw [show foldBody p (.pathLine v :: rest) =
        foldBody { p with path := some v } rest from rfl, ih hrest]
      simp [htr, hasPathLine]
    | urlLine v =>
      rw [show foldBody p (.urlLine v :: rest) =
        foldBody { p with url := some v } rest from rfl, ih hrest]
      simp [hasPathLine]
    | branchLine v =>
      rw [show foldBody p (.branchLine v :: rest) =
        foldBody { p with branch := some v } rest from rfl, ih hrest]
      simp [hasPathLine]
    | otherLine s =>
      rw [show foldBody p (.otherLine s :: rest) = foldBody p rest from rfl, ih hrest]
      simp [hasPathLine]

theorem foldBody_url (body : List BlockLine)
    (hbody : body.all validBlockLine = true) (p : PendingEntry) :
    jsTruthyOpt (foldBody p body).url =
      (jsTruthyOpt p.url || body.any hasUrlLine) := by
  induction body generalizing p with
  | nil => simp [foldBody]
  | cons line rest ih =>
    rw [List.all_cons, Bool.and_eq_true] at hbody
    obtain ⟨hline, hrest⟩ := hbody
    cases line with
    | pathLine v =>
      rw [show foldBody p (.pathLine v :: rest) =
        foldBody { p with path := some v } rest from rfl, ih hrest]
      simp [hasUrlLine]
    | urlLine v =>
      have hne := (cleanValue_spec hline).1
      have htr : jsTruthyOpt (some v) = true := by
        simp [jsTruthyOpt, jsTruthy, List.isEmpty_eq_false, hne]
      rw [show foldBody p (.urlLine v :: rest) =
        foldBody { p with url := some v } rest from rfl, ih hrest]
      simp [htr, hasUrlLine]
    | branchLine v =>
      rw [show foldBody p (.branchLine v :: rest) =
        foldBody { p with branch := some v } rest from rfl, ih hrest]
      simp [hasUrlLine]
    | otherLine s =>
      rw [show foldBody p (.otherLine s :: rest) = foldBody p rest from rfl, ih hrest]
      simp [hasUrlLine]

theorem pendingComplete_foldBody (b : ConfigBlock)
    (hbody : b.body.all validBlockLine = true) :
    pendingComplete (foldBody emptyPending b.body) = blockComplete b := by
  rw [pendingComplete, foldBody_path b.body hbody, foldBody_url b.body hbody]
  simp [emptyPending, jsTruthyOpt, blockComplete]

theorem flushPending_length (subs : List GitmodulesEntry) (p : PendingEntry) :
    (flushPending subs p).length =
      subs.length + (if pendingComplete p then 1 else 0) := by
  unfold flushPending
  split <;> simp

/-- `parseLinesList` resumed from an arbitrary intermediate parser state. -/
def parseFrom (st : List GitmodulesEntry × PendingEntry) (lines : List String) :
    List GitmodulesEntry :=
  let st2 := lines.foldl stepLine st
  flushPending st2.1 st2.2

theorem parseLinesList_eq_parseFrom (lines : List String) :
    parseLinesList lines = parseFrom ([], emptyPending) lines := rfl

theorem parseFrom_count (blocks : List ConfigBlock)
    (hv : blocks.all validBlock = true) :
    ∀ (subs : List GitmodulesEntry) (p : PendingEntry),
      (parseFrom (subs, p) (configLines blocks)).length =
        subs.length + (if pendingComplete p then 1 else 0) +
          (blocks.filter blockComplete).length := by
  induction blocks with
  | nil =>
    intro subs p
    simp only [configLines, List.map_nil, List.flatten_nil, parseFrom,
      List.foldl_nil, List.filter_nil, List.length_nil, Nat.add_zero]
    exact flushPending_length subs p
  | cons b rest ih =>
    intro subs p
    rw [List.all_cons, Bool.and_eq_true] at hv
    obtain ⟨hb, hrest⟩ := hv
    have hbody : b.body.all validBlockLine = true := by
      rw [validBlock, Bool.and_eq_true] at hb
      exact hb.2
    have hcfg : configLines (b :: rest) = blockLines b ++ configLines rest := by
      simp [configLines]
    rw [hcfg]
    show (parseFrom (subs, p) (blockLines b ++ configLines rest)).length = _
    have hfold : List.foldl stepLine (subs, p) (blockLines b ++ configLines rest) =
        List.foldl stepLine (flushPending subs p, foldBody emptyPending b.body)
          (configLines rest) := by
      rw [List.foldl_append, blockLines, List.foldl_cons,
        stepLine_header subs p b, foldl_stepLine_body b.body hbody]
    have : (parseFrom (subs, p) (blockLines b ++ configLines rest)) =
        parseFrom (flushPending subs p, foldBody emptyPending b.body)
          (configLines rest) := by
      unfold parseFrom
      rw [hfold]
    rw [this, ih hrest (flushPending subs p) (foldBody emptyPending b.body),
      flushPending_length, pendingComplete_foldBody b hbody, List.filter_cons]
    by_cases hc : blockComplete b = true
    · rw [if_pos hc, if_pos hc]
      simp only [List.length_cons]
      omega
    · rw [if_neg hc, if_neg hc]
      omega

theorem noNewline_configLines (blocks : List ConfigBlock)
    (hv : blocks.all validBlock = true) :
    ∀ l ∈ (configLines blocks).map String.data, '\n' ∉ l := by
  intro l hl
  rw [List.mem_map] at hl
  obtain ⟨line, hline, rfl⟩ := hl
  rw [configLines, List.mem_flatten] at hline
  obtain ⟨ls, hls, hmem⟩ := hline
  rw [List.mem_map] at hls
  obtain ⟨b, hbmem, rfl⟩ := hls
  rw [List.all_eq_true] at hv
  have hb := hv b hbmem
  rw [validBlock, Bool.and_eq_true, List.all_eq_true] at hb
  obtain ⟨hname, hbody⟩ := hb
  rw [List.all_eq_true] at hbody
  have hnamene : '\n' ∉ b.name.data := by
    intro hmem'
    have := hname _ hmem'
    simp at this
  rw [blockLines, List.mem_cons] at hmem
  rcases hmem with rfl | hmem
  · -- the header line
    intro hmem'
    have hdata : (headerOf b).data =
        "[submodule \"".data ++ b.name.data ++ "\"]".data := by
      simp [headerOf, String.data_append]
    rw [hdata, List.mem_append, List.mem_append] at hmem'
    rcases hmem' with (h | h) | h
    · revert h; decide
    · exact hnamene h
    · revert h; decide
  · rw [List.mem_map] at hmem
    obtain ⟨bl, hblmem, rfl⟩ := hmem
    have hbl := hbody bl hblmem
    cases bl with
    | pathLine v =>
      have hvne := (cleanValue_spec hbl).2.2.2
      intro hmem'
      rw [show renderLine (.pathLine v) = "\tpath = " ++ v from rfl,
        String.data_append, List.mem_append] at hmem'
      rcases hmem' with h | h
      · revert h; decide
      · exact hvne h
    | urlLine v =>
      have hvne := (cleanValue_spec hbl).2.2.2
      intro hmem'
      rw [show renderLine (.urlLine v) = "\turl = " ++ v from rfl,
        String.data_append, List.mem_append] at hmem'
      rcases hmem' with h | h
      · revert h; decide
      · exact hvne h
    | branchLine v =>
      have hvne := (cleanValue_spec hbl).2.2.2
      intro hmem'
      rw [show renderLine (.branchLine v) = "\tbranch = " ++ v from rfl,
        String.data_append, List.mem_append] at hmem'
      rcases hmem' with h | h
      · revert h; decide
      · exact hvne h
    | otherLine s =>
      have hs : inertLine s = true := hbl
      rw [inertLine, Bool.and_eq_true, Bool.and_eq_true, Bool.and_eq_true,
        Bool.and_eq_true] at hs
      have hall := hs.1.1.1.1
      rw [List.all_eq_true] at hall
      intro hmem'
      have := hall _ hmem'
      simp [renderLine] at this

theorem jsSplitLines_renderConfig (blocks : List ConfigBlock)
    (hv : blocks.all validBlock = true) (hne : blocks ≠ []) :
    jsSplitLines (renderConfig blocks) = configLines blocks := by
  unfold jsSplitLines renderConfig
  rw [show (⟨List.intercalate ['\n'] ((configLines blocks).map String.data)⟩ :
      String).data =
    List.intercalate ['\n'] ((configLines blocks).map String.data) from rfl]
  have hlsne : (configLines blocks).map String.data ≠ [] := by
    rcases blocks with _ | ⟨b, rest⟩
    · exact absurd rfl hne
    · simp [configLines, blockLines]
  rw [List.splitOn_intercalate ((configLines blocks).map String.data) '\n'
    (noNewline_configLines blocks hv) hlsne]
  have hcomp : (fun l : List Char => (⟨l⟩ : String)) ∘ String.data = id :=
    funext fun s => rfl
  rw [List.map_map, hcomp, List.map_id]

/-- Shared helper: declaration count of a rendered valid configuration. -/
theorem parseGitmodules_renderConfig_length (blocks : List ConfigBlock)
    (hv : blocks.all validBlock = true) :
    (parseGitmodules (renderConfig blocks)).length =
      (blocks.filter blockComplete).length := by
  rcases hb : blocks with _ | ⟨b, rest⟩
  · decide
  · rw [← hb]
    have hne : blocks ≠ [] := by rw [hb]; exact List.cons_ne_nil _ _
    show (parseLinesList (jsSplitLines (renderConfig blocks))).length = _
    rw [jsSplitLines_renderConfig blocks hv hne, parseLinesList_eq_parseFrom,
      parseFrom_count blocks hv [] emptyPending]
    simp [pendingComplete, emptyPending, jsTruthyOpt]

/-- C2: for every valid configuration text, the parser returns exactly one
declaration per `[submodule]` block that sets both `path` and `url` before
the next section header or end of input; blocks missing either field
contribute nothing. -/
theorem claim_C2_parser_count (blocks : List ConfigBlock)
    (hv : blocks.all validBlock = true) :
    (parseGitmodules (renderConfig blocks)).length =
      (blocks.filter blockComplete).length :=
  parseGitmodules_renderConfig_length blocks hv

def sampleBlocks : List ConfigBlock :=
  [⟨"a", [.pathLine "libs/a", .urlLine "https://x/a.git"]⟩,
   ⟨"b", [.pathLine "libs/b"]⟩,
   ⟨"c", [.branchLine "dev", .urlLine "u", .otherLine "# comment",
     .pathLine "p"]⟩]

theorem claim_C2_parser_count_witness :
    (parseGitmodules (renderConfig sampleBlocks)).length =
        (sampleBlocks.filter blockComplete).length ∧
      (sampleBlocks.filter blockComplete).length = 2 :=
  ⟨claim_C2_parser_count sampleBlocks (by decide), by decide⟩

/-- C8: a missing configuration source degrades the run to zero submodules
instead of aborting, and a configuration with zero valid declarations
parses to the empty sequence (not an error). -/
theorem claim_C8_config_degradation (o : GitOracle) (defaultBranch : String) :
    (∀ content : String, checkSubmodules o defaultBranch false content = []) ∧
    (∀ blocks : List ConfigBlock, blocks.all validBlock = true →
      (∀ b ∈ blocks, blockComplete b = false) →
      parseGitmodules (renderConfig blocks) = []) := by
  constructor
  · intro content
    rfl
  · intro blocks hv hnone
    have hfilter : blocks.filter blockComplete = [] := by
      rw [List.filter_eq_nil_iff]
      intro b hb
      rw [hnone b hb]
      exact Bool.false_ne_true
    have := parseGitmodules_renderConfig_length blocks hv
    rw [hfilter, List.length_nil, List.length_eq_zero] at this
    exact this

def incompleteBlocks : List ConfigBlock :=
  [⟨"a", [.pathLine "libs/a"]⟩, ⟨"b", [.urlLine "u", .otherLine "x = y"]⟩]

theorem claim_C8_config_degradation_witness :
    checkSubmodules oracleAllFail "main" false
        "[submodule \"a\"]\npath = libs/a\nurl = u" = [] ∧
      parseGitmodules (renderConfig incompleteBlocks) = [] :=
  ⟨(claim_C8_config_degradation oracleAllFail "main").1 _,
   (claim_C8_config_degradation oracleAllFail "main").2 incompleteBlocks
     (by decide) (by decide)⟩
